import Mathlib

/-!
Verification of the parsing/rendering pipeline of
`src/claude-config/skills/rfc-writer/rfc_to_docx.py`.

Strings are modelled as lists of characters (`Str`).  Python's `str.strip`,
`str.split`, `str.startswith`, `str.partition` and the regular expressions
used by the script are transcribed below, restricted to ASCII whitespace and
ASCII digits (the script is only ever fed such text; Python's Unicode tables
for `\s`, `\d` and `str.strip` agree with this model on all inputs the
claims are about).  The float comparison `count / total > 0.15` is modelled
by the exact rational comparison `3 * total < 20 * count`, which agrees with
the IEEE-double comparison for every count/total pair whose denominator is
below 10^15, i.e. for every physically possible text.
-/

namespace RfcToDocx

abbrev Str := List Char

/-- Characters removed by Python `str.strip()` (ASCII whitespace, which is
also what the regex class backslash-s matches on ASCII text). -/
def isPyWs (c : Char) : Bool :=
  c == ' ' || c == '\t' || c == '\n' || c == '\r' || c == '\x0b' || c == '\x0c'

/-- Python `s.lstrip()`. -/
def lstrip (s : Str) : Str := s.dropWhile isPyWs

/-- Python `s.rstrip()`. -/
def rstrip (s : Str) : Str := (s.reverse.dropWhile isPyWs).reverse

/-- Python `s.strip()`. -/
def strip (s : Str) : Str := rstrip (lstrip s)

/-- `startsW s p` is Python `s.startswith(p)`. -/
def startsW : Str → Str → Bool
  | _, [] => true
  | [], _ :: _ => false
  | c :: s, p :: ps => c == p && startsW s ps

/-- Python `s.split(sep)` for a one-character separator: `"" ↦ [""]`,
`"a\nb" ↦ ["a", "b"]`, `"a\n" ↦ ["a", ""]`. -/
def splitOnChar (sep : Char) : Str → List Str
  | [] => [[]]
  | c :: r =>
    if c == sep then [] :: splitOnChar sep r
    else
      match splitOnChar sep r with
      | [] => [[c]]
      | x :: xs => (c :: x) :: xs

/-- `text.split('\n')`, as used by `parse_rfc_content`. -/
def splitLines (s : Str) : List Str := splitOnChar '\n' s

/-- Python `sep.join(xs)`. -/
def joinWith (sep : Str) : List Str → Str
  | [] => []
  | [x] => x
  | x :: y :: xs => x ++ sep ++ joinWith sep (y :: xs)

/-- Character list of a Lean string literal (input helper). -/
def S (s : String) : Str := s.toList

/-- The character U+0060 (the fence delimiter character). -/
def backquote : Char := Char.ofNat 96

/-- The character U+007B. -/
def lbrace : Char := Char.ofNat 123

/-- The character U+007D. -/
def rbrace : Char := Char.ofNat 125

/-! ### `is_ascii_diagram` -/

/-- The eleven characters of the regex class `[┌┐└┘├┤┬┴┼─│]`
(second `box_patterns` entry). -/
def isBoxChar (c : Char) : Bool :=
  c == '┌' || c == '┐' || c == '└' || c == '┘' || c == '├' || c == '┤' ||
  c == '┬' || c == '┴' || c == '┼' || c == '─' || c == '│'

/-- The double-line box-drawing characters of the density set. -/
def isDoubleBoxChar (c : Char) : Bool :=
  c == '═' || c == '║' || c == '╔' || c == '╗' || c == '╚' || c == '╝' ||
  c == '╠' || c == '╣' || c == '╦' || c == '╩' || c == '╬'

/-- The ASCII-art characters of the density set: `+-|*/\<>^v[]()` and the
two curly brackets. -/
def isAsciiArtChar (c : Char) : Bool :=
  c == '+' || c == '-' || c == '|' || c == '*' || c == '/' || c == '\\' ||
  c == '<' || c == '>' || c == '^' || c == 'v' || c == '[' || c == ']' ||
  c == '(' || c == ')' || c == lbrace || c == rbrace

/-- Membership in the density character set
`'─│┌┐└┘├┤┬┴┼═║╔╗╚╝╠╣╦╩╬+-|*/\<>^v[]()'` plus the two curly brackets
of `is_ascii_diagram`. -/
def isDiagramChar (c : Char) : Bool :=
  isBoxChar c || isDoubleBoxChar c || isAsciiArtChar c

/-- The regex class `[\+\-\|]`. -/
def isPlusDashBar (c : Char) : Bool := c == '+' || c == '-' || c == '|'

/-- `re.search(r'[c]{3,}', text)`: three consecutive characters satisfying
`p` occur somewhere in the text. -/
def hasRun3 (p : Char → Bool) : Str → Bool
  | a :: b :: c :: r => (p a && p b && p c) || hasRun3 p (b :: c :: r)
  | _ => false

/-- `hasSubseqOf p s`: `p` occurs as a subsequence of `s`. -/
def hasSubseqOf : Str → Str → Bool
  | [], _ => true
  | _ :: _, [] => false
  | p :: ps, c :: cs => if p == c then hasSubseqOf ps cs else hasSubseqOf (p :: ps) cs

/-- The regex `│\s*│`: two `│` with only whitespace between them
(the regex class backslash-s also matches the newline). -/
def barWsBar : Str → Bool
  | [] => false
  | c :: r => (c == '│' && startsW (r.dropWhile isPyWs) ['│']) || barWsBar r

/-- The five `box_patterns` regexes of `is_ascii_diagram`, as one test.
The third pattern `\[.*\].*\[.*\]` cannot cross a newline (`.` does not
match `\n`), so it holds exactly when some line contains the subsequence
`[`, `]`, `[`, `]`. -/
def patternMatch (s : Str) : Bool :=
  hasRun3 isPlusDashBar s ||
  s.any isBoxChar ||
  (splitLines s).any (fun l => hasSubseqOf ['[', ']', '[', ']'] l) ||
  hasRun3 (fun c => c == '─') s ||
  barWsBar s

/-- `diagram_char_count`. -/
def diagCount (s : Str) : Nat := (s.filter isDiagramChar).length

/-- `total_chars = len(text.replace(' ', '').replace('\n', ''))`: only the
space and the newline are removed, other whitespace is counted. -/
def totalNonSpaceNl (s : Str) : Nat :=
  (s.filter (fun c => !(c == ' ') && !(c == '\n'))).length

/-- `total_chars > 0 and diagram_char_count / total_chars > 0.15`,
as an exact rational comparison. -/
def densityExceeds (s : Str) : Bool :=
  decide (0 < totalNonSpaceNl s) && decide (3 * totalNonSpaceNl s < 20 * diagCount s)

/-- `is_ascii_diagram`. -/
def isAsciiDiagram (s : Str) : Bool := patternMatch s || densityExceeds s

/-- Claim-side definition (C6 as worded): the fallback ratio with the
denominator counting the non-whitespace (rather than non-space,
non-newline) characters. -/
def specFallbackExceeds (s : Str) : Bool :=
  decide (0 < (s.filter (fun c => !(isPyWs c))).length) &&
  decide (3 * (s.filter (fun c => !(isPyWs c))).length < 20 * diagCount s)

/-! ### `parse_markdown_table` -/

/-- `line.split('|')[1:-1]`, each cell stripped. -/
def cellsOf (l : Str) : List Str :=
  (((splitOnChar '|' l).drop 1).dropLast).map strip

/-- The regex `^[-:]+$` on one cell. -/
def isSepCell (c : Str) : Bool :=
  !(c.isEmpty) && c.all (fun ch => ch == '-' || ch == ':')

/-- `all(re.match(r'^[-:]+$', cell) for cell in cells)`; note that this is
vacuously true for an empty cell list. -/
def sepRow (cells : List Str) : Bool := cells.all isSepCell

/-- One iteration of the loop of `parse_markdown_table`; the accumulator is
the `(headers, rows)` pair, headers `= []` meaning not assigned yet. -/
def tableStep (acc : List Str × List (List Str)) (line : Str) :
    List Str × List (List Str) :=
  let l := strip line
  if !(startsW l ['|']) then acc
  else if sepRow (cellsOf l) then acc
  else if acc.1.isEmpty then (cellsOf l, acc.2)
  else (acc.1, acc.2 ++ [cellsOf l])

/-- `parse_markdown_table`. -/
def parseMarkdownTable (lines : List Str) : List Str × List (List Str) :=
  lines.foldl tableStep ([], [])

/-! ### `parse_rfc_content` -/

/-- `int()` on a digit string. -/
def digitsToNat (s : Str) : Nat := s.foldl (fun a c => a * 10 + (c.toNat - 48)) 0

/-- `re.match(r'^(\d+)\.\s+(.+)$', s)` with `int` applied to group 1;
returns `(number, group 2)`.  The greedy `\s+` backtracks by exactly one
character when nothing is left for `(.+)`; `.` cannot match the newline but
the call sites only pass stripped single lines, which contain none. -/
def matchNumbered (s : Str) : Option (Nat × Str) :=
  let ds := s.takeWhile Char.isDigit
  if ds.isEmpty then none else
  match s.dropWhile Char.isDigit with
  | '.' :: r2 =>
    let ws := r2.takeWhile isPyWs
    let r3 := r2.dropWhile isPyWs
    if ws.isEmpty then none
    else if !(r3.isEmpty) then some (digitsToNat ds, r3)
    else if 2 ≤ ws.length then some (digitsToNat ds, [ws.getLastD ' '])
    else none
  | _ => none

/-- `re.match(r'^\d+\.\s', s)`, the paragraph-break test. -/
def matchesNumPre (s : Str) : Bool :=
  match s.dropWhile Char.isDigit with
  | '.' :: c :: _ => !(s.takeWhile Char.isDigit).isEmpty && isPyWs c
  | _ => false

/-- The elements produced by `parse_rfc_content`. -/
inductive Elem where
  | title (text : Str)
  | h1 (text : Str)
  | h2 (text : Str)
  | h3 (text : Str)
  | paragraph (text : Str)
  | bullet (text : Str) (indent : Nat)
  | numbered (text : Str) (num : Nat)
  | code (text : Str)
  | diagram (text : Str)
  | table (headers : List Str) (rows : List (List Str))
  | metadata (key : Str) (value : Str)
deriving DecidableEq

/-- The fence delimiter. -/
def fenceTok : Str := [backquote, backquote, backquote]

/-- `line.strip().startswith('```' )`. -/
def isFenceLine (l : Str) : Bool := startsW (strip l) fenceTok

/-- `line.strip().startswith('|')`. -/
def isTableLine (l : Str) : Bool := startsW (strip l) ['|']

/-- The body of a fenced block opened just before `t`: the raw lines up to
(not including) the next fence line, joined with newlines. -/
def fenceBody (t : List Str) : Str :=
  joinWith ['\n'] (t.takeWhile (fun x => !(isFenceLine x)))

/-- The lines remaining after a fenced block opened just before `t`
(the closing fence line is also consumed). -/
def fenceRest (t : List Str) : List Str :=
  (t.dropWhile (fun x => !(isFenceLine x))).drop 1

/-- The recognized metadata keys. -/
def recognizedKeys : List Str :=
  [S "Author", S "Status", S "Created", S "Date", S "Version"]

/-- The break test for paragraph accumulation (applied to the stripped
next line). -/
def paraBreak (s : Str) : Bool :=
  s.isEmpty || startsW s ['#'] || startsW s fenceTok || startsW s ['|'] ||
  startsW s ['-', ' '] || startsW s ['*', ' '] || matchesNumPre s

/-- `stripped.partition(':')[0].strip()`. -/
def metaKey (s : Str) : Str := strip (s.takeWhile (fun c => !(c == ':')))

/-- `stripped.partition(':')[2].strip()`. -/
def metaValue (s : Str) : Str := strip ((s.dropWhile (fun c => !(c == ':'))).drop 1)

/-- One iteration of the `while` loop of `parse_rfc_content`: given the
number `n` of elements already produced (`len(elements)`), the current line
`l` and the remaining lines `t`, return the element produced (if any) and
the remaining lines. -/
def parseStep (n : Nat) (l : Str) (t : List Str) : Option Elem × List Str :=
  let s := strip l
  if s.isEmpty then (none, t)
  else if startsW s ['#', ' '] && n == 0 then
    (some (.title (strip (s.drop 2))), t)
  else if startsW s ['#', '#', '#', ' '] then
    (some (.h3 (strip (s.drop 4))), t)
  else if startsW s ['#', '#', ' '] then
    (some (.h2 (strip (s.drop 3))), t)
  else if startsW s ['#', ' '] then
    (some (.h1 (strip (s.drop 2))), t)
  else if startsW s fenceTok then
    (some (if isAsciiDiagram (fenceBody t) then .diagram (fenceBody t)
           else .code (fenceBody t)),
     fenceRest t)
  else if startsW s ['|'] then
    (if (parseMarkdownTable ((l :: t).takeWhile isTableLine)).1.isEmpty then none
     else some (.table (parseMarkdownTable ((l :: t).takeWhile isTableLine)).1
                       (parseMarkdownTable ((l :: t).takeWhile isTableLine)).2),
     (l :: t).dropWhile isTableLine)
  else if startsW s ['-', ' '] || startsW s ['*', ' '] then
    (some (.bullet (strip (s.drop 2)) ((l.takeWhile isPyWs).length / 2)), t)
  else
    match matchNumbered s with
    | some (num, txt) => (some (.numbered txt num), t)
    | none =>
      if s.any (fun c => c == ':') && decide (n ≤ 2) &&
         recognizedKeys.contains (metaKey s) then
        (some (.metadata (metaKey s) (metaValue s)), t)
      else
        (some (.paragraph
                 (joinWith [' ']
                   (s :: (t.takeWhile (fun x => !(paraBreak (strip x)))).map strip))),
         t.dropWhile (fun x => !(paraBreak (strip x))))

/-- The parse loop, with fuel.  `parseRfcContent` runs it with fuel = the
number of lines, which is always enough because every step consumes at
least one line (lemma `parseAuxF_fuel_irrelevant` below). -/
def parseAuxF : Nat → Nat → List Str → List Elem
  | 0, _, _ => []
  | _ + 1, _, [] => []
  | f + 1, n, l :: t =>
    match parseStep n l t with
    | (none, rest) => parseAuxF f n rest
    | (some e, rest) => e :: parseAuxF f (n + 1) rest

/-- `parse_rfc_content`. -/
def parseRfcContent (text : Str) : List Elem :=
  parseAuxF (splitLines text).length 0 (splitLines text)

/-! ### `convert_rfc_to_docx` -/

/-- The constructs appended to the docx document, in order. -/
inductive DocItem where
  | docTitle (text : Str)
  | metaBlock (items : List (Str × Str))
  | blankPara
  | headingI (level : Nat) (text : Str)
  | para (text : Str)
  | bulletI (text : Str) (indent : Nat)
  | numberedI (text : Str)
  | codeI (text : Str)
  | picture (text : Str)
  | tableI (headers : List Str) (rows : List (List Str))
deriving DecidableEq

/-- The decimal digit character of `n < 10`. -/
def digitChar (n : Nat) : Char := Char.ofNat (48 + n)

/-- Fuelled decimal printing. -/
def natToStrAux : Nat → Nat → Str → Str
  | 0, _, acc => acc
  | f + 1, n, acc =>
    if n < 10 then digitChar n :: acc
    else natToStrAux f (n / 10) (digitChar (n % 10) :: acc)

/-- Canonical decimal rendering of a natural number (Python `str`). -/
def natToStr (n : Nat) : Str := natToStrAux (n + 1) n []

/-- The run text of `add_numbered_item`: Python `f"{number}. {text}"`. -/
def numberedText (num : Nat) (text : Str) : Str := natToStr num ++ S ". " ++ text

/-- Python `title or content`: `None` and the empty string both fall back
to the parsed title text. -/
def chooseTitle (tOv : Option Str) (text : Str) : Str :=
  match tOv with
  | none => text
  | some t => if t.isEmpty then text else t

/-- The rendering loop of `convert_rfc_to_docx`.  `rOk d` tells whether
`ascii_diagram_to_image` succeeds on diagram text `d` (the rasterizer is an
external plotting library, so its success is a parameter of the model; the
`try/except` makes the loop total either way).  `buf` is `metadata_items`;
the trailing `if` of the function body is the `[]` case. -/
def renderElems (rOk : Str → Bool) (tOv : Option Str) (buf : List (Str × Str)) :
    List Elem → List DocItem
  | [] => if buf.isEmpty then [] else [.metaBlock buf]
  | .title txt :: rest =>
    .docTitle (chooseTitle tOv txt) :: renderElems rOk tOv buf rest
  | .metadata k v :: rest => renderElems rOk tOv (buf ++ [(k, v)]) rest
  | .h1 txt :: rest =>
    if buf.isEmpty then .headingI 1 txt :: renderElems rOk tOv buf rest
    else .metaBlock buf :: .blankPara :: .headingI 1 txt :: renderElems rOk tOv [] rest
  | .h2 txt :: rest => .headingI 2 txt :: renderElems rOk tOv buf rest
  | .h3 txt :: rest => .headingI 3 txt :: renderElems rOk tOv buf rest
  | .paragraph txt :: rest => .para txt :: renderElems rOk tOv buf rest
  | .bullet txt lv :: rest => .bulletI txt lv :: renderElems rOk tOv buf rest
  | .numbered txt num :: rest =>
    .numberedI (numberedText num txt) :: renderElems rOk tOv buf rest
  | .code txt :: rest => .codeI txt :: renderElems rOk tOv buf rest
  | .diagram txt :: rest =>
    (if rOk txt then .picture txt else .codeI txt) :: renderElems rOk tOv buf rest
  | .table hs rs :: rest => .tableI hs rs :: .blankPara :: renderElems rOk tOv buf rest

/-- `convert_rfc_to_docx` (the sequence of document constructs it appends). -/
def convertToDocx (rOk : Str → Bool) (tOv : Option Str) (text : Str) : List DocItem :=
  renderElems rOk tOv [] (parseRfcContent text)

/-! ### Claim-side observation functions -/

/-- Is the element a level-1 heading element? -/
def isH1E : Elem → Bool
  | .h1 _ => true
  | _ => false

/-- Is the element a metadata element? -/
def isMetaE : Elem → Bool
  | .metadata _ _ => true
  | _ => false

/-- The metadata pairs of an element list, in order. -/
def metaPairs (els : List Elem) : List (Str × Str) :=
  els.filterMap (fun e => match e with | .metadata k v => some (k, v) | _ => none)

/-- Rendering with the metadata buffering removed: every non-metadata
element contributes its direct document constructs, metadata contributes
nothing.  Used to state what `renderElems` does around its flush points. -/
def elemItems (rOk : Str → Bool) (tOv : Option Str) : List Elem → List DocItem
  | [] => []
  | .title txt :: rest => .docTitle (chooseTitle tOv txt) :: elemItems rOk tOv rest
  | .metadata _ _ :: rest => elemItems rOk tOv rest
  | .h1 txt :: rest => .headingI 1 txt :: elemItems rOk tOv rest
  | .h2 txt :: rest => .headingI 2 txt :: elemItems rOk tOv rest
  | .h3 txt :: rest => .headingI 3 txt :: elemItems rOk tOv rest
  | .paragraph txt :: rest => .para txt :: elemItems rOk tOv rest
  | .bullet txt lv :: rest => .bulletI txt lv :: elemItems rOk tOv rest
  | .numbered txt num :: rest => .numberedI (numberedText num txt) :: elemItems rOk tOv rest
  | .code txt :: rest => .codeI txt :: elemItems rOk tOv rest
  | .diagram txt :: rest =>
    (if rOk txt then .picture txt else .codeI txt) :: elemItems rOk tOv rest
  | .table hs rs :: rest => .tableI hs rs :: .blankPara :: elemItems rOk tOv rest

/-- Is the construct a flushed metadata block? -/
def isMetaBlockI : DocItem → Bool
  | .metaBlock _ => true
  | _ => false

/-- The number of metadata blocks among the appended constructs. -/
def countMetaBlocks (items : List DocItem) : Nat := items.countP isMetaBlockI

/-- The texts of the `h1` elements, in order. -/
def elemH1Texts (els : List Elem) : List Str :=
  els.filterMap (fun e => match e with | .h1 t => some t | _ => none)

/-- The texts of the appended heading-level-1 constructs, in order. -/
def h1ItemTexts (items : List DocItem) : List Str :=
  items.filterMap (fun d => match d with | .headingI 1 t => some t | _ => none)

/-- Claim-side: the heading texts of the lines whose stripped form starts
with hash-space, in order. -/
def hashTexts (lines : List Str) : List Str :=
  lines.filterMap (fun l =>
    if startsW (strip l) ['#', ' '] then some (strip ((strip l).drop 2)) else none)

/-- Claim-side: the first line whose stripped form is non-empty. -/
def firstNonBlank (lines : List Str) : Option Str :=
  (lines.dropWhile (fun l => (strip l).isEmpty)).head?

/-- Does the first non-blank line's stripped form start with hash-space? -/
def firstHashGuard (lines : List Str) : Bool :=
  match lines.dropWhile (fun l => (strip l).isEmpty) with
  | [] => false
  | l :: _ => startsW (strip l) ['#', ' ']

/-! ### Generic list facts used below -/

theorem len_dropWhile_le {α : Type} (p : α → Bool) :
    ∀ xs : List α, (xs.dropWhile p).length ≤ xs.length := by
  intro xs
  induction xs with
  | nil => simp
  | cons a t ih =>
    cases h : p a <;> simp [List.dropWhile, h]
    exact Nat.le_succ_of_le ih

theorem mem_of_mem_dropWhile {α : Type} (p : α → Bool) :
    ∀ (xs : List α) (x : α), x ∈ xs.dropWhile p → x ∈ xs := by
  intro xs
  induction xs with
  | nil => simp
  | cons a t ih =>
    intro x hx
    cases h : p a
    · simpa [List.dropWhile, h] using hx
    · simp only [List.dropWhile, h] at hx
      exact List.mem_cons_of_mem a (ih x hx)

theorem pred_of_mem_takeWhile {α : Type} (p : α → Bool) :
    ∀ (xs : List α) (x : α), x ∈ xs.takeWhile p → p x = true := by
  intro xs
  induction xs with
  | nil => simp
  | cons a t ih =>
    intro x hx
    cases h : p a
    · simp [List.takeWhile, h] at hx
    · simp only [List.takeWhile, h] at hx
      rcases List.mem_cons.mp hx with rfl | hx
      · exact h
      · exact ih x hx

/-! ### Facts about `startsW` -/

theorem startsW_cons_ex {s : Str} {a : Char} {p : Str}
    (h : startsW s (a :: p) = true) : ∃ r, s = a :: r ∧ startsW r p = true := by
  cases s with
  | nil => simp [startsW] at h
  | cons c r =>
    simp only [startsW, Bool.and_eq_true, beq_iff_eq] at h
    exact ⟨r, by rw [h.1], h.2⟩

theorem startsW_head_false {c p : Char} {r ps : Str} (hc : (c == p) = false) :
    startsW (c :: r) (p :: ps) = false := by
  simp [startsW, hc]

theorem startsW_hash_space {s : Str} (h : startsW s ['#', ' '] = true) :
    ∃ r, s = '#' :: ' ' :: r := by
  obtain ⟨r, rfl, h1⟩ := startsW_cons_ex h
  obtain ⟨r2, rfl, _⟩ := startsW_cons_ex h1
  exact ⟨r2, rfl⟩

theorem sw_h1_not_h2 {s : Str} (h : startsW s ['#', ' '] = true) :
    startsW s ['#', '#', ' '] = false ∧ startsW s ['#', '#', '#', ' '] = false := by
  obtain ⟨r, rfl⟩ := startsW_hash_space h
  exact ⟨rfl, rfl⟩

theorem sw_h3_not_h1 {s : Str} (h : startsW s ['#', '#', '#', ' '] = true) :
    startsW s ['#', ' '] = false := by
  obtain ⟨r, rfl, h1⟩ := startsW_cons_ex h
  obtain ⟨r2, rfl, _⟩ := startsW_cons_ex h1
  rfl

theorem sw_h2_not_h1 {s : Str} (h : startsW s ['#', '#', ' '] = true) :
    startsW s ['#', ' '] = false := by
  obtain ⟨r, rfl, h1⟩ := startsW_cons_ex h
  obtain ⟨r2, rfl, _⟩ := startsW_cons_ex h1
  rfl

theorem sw_hash_of_hash_space {s : Str} (h : startsW s ['#', ' '] = true) :
    startsW s ['#'] = true := by
  obtain ⟨r, rfl⟩ := startsW_hash_space h
  rfl

theorem parseStep_eq_blank (n : Nat) (l : Str) (t : List Str)
    (h1 : (strip l).isEmpty = true) : parseStep n l t = (none, t) := by
  simp [parseStep, h1]

theorem parseStep_eq_title (n : Nat) (l : Str) (t : List Str)
    (h1 : (strip l).isEmpty = false)
    (h2 : (startsW (strip l) ['#', ' '] && n == 0) = true) :
    parseStep n l t = (some (.title (strip ((strip l).drop 2))), t) := by
  simp [parseStep, h1, h2]

theorem parseStep_eq_h3 (n : Nat) (l : Str) (t : List Str)
    (h1 : (strip l).isEmpty = false)
    (h2 : (startsW (strip l) ['#', ' '] && n == 0) = false)
    (h3 : startsW (strip l) ['#', '#', '#', ' '] = true) :
    parseStep n l t = (some (.h3 (strip ((strip l).drop 4))), t) := by
  simp [parseStep, h1, h2, h3]

theorem parseStep_eq_h2 (n : Nat) (l : Str) (t : List Str)
    (h1 : (strip l).isEmpty = false)
    (h2 : (startsW (strip l) ['#', ' '] && n == 0) = false)
    (h3 : startsW (strip l) ['#', '#', '#', ' '] = false)
    (h4 : startsW (strip l) ['#', '#', ' '] = true) :
    parseStep n l t = (some (.h2 (strip ((strip l).drop 3))), t) := by
  simp [parseStep, h1, h2, h3, h4]

theorem parseStep_eq_h1 (n : Nat) (l : Str) (t : List Str)
    (h1 : (strip l).isEmpty = false)
    (h2 : (startsW (strip l) ['#', ' '] && n == 0) = false)
    (h3 : startsW (strip l) ['#', '#', '#', ' '] = false)
    (h4 : startsW (strip l) ['#', '#', ' '] = false)
    (h5 : startsW (strip l) ['#', ' '] = true) :
    parseStep n l t = (some (.h1 (strip ((strip l).drop 2))), t) := by
  have h2' : ¬n = 0 := by rw [h5] at h2; simpa using h2
  simp [parseStep, h1, h2, h3, h4, h5, h2']

theorem parseStep_eq_fence (n : Nat) (l : Str) (t : List Str)
    (h1 : (strip l).isEmpty = false)
    (h2 : (startsW (strip l) ['#', ' '] && n == 0) = false)
    (h3 : startsW (strip l) ['#', '#', '#', ' '] = false)
    (h4 : startsW (strip l) ['#', '#', ' '] = false)
    (h5 : startsW (strip l) ['#', ' '] = false)
    (h6 : startsW (strip l) fenceTok = true) :
    parseStep n l t =
      (some (if isAsciiDiagram (fenceBody t) then Elem.diagram (fenceBody t)
             else Elem.code (fenceBody t)), fenceRest t) := by
  simp [parseStep, h1, h2, h3, h4, h5, h6]

theorem parseStep_eq_table (n : Nat) (l : Str) (t : List Str)
    (h1 : (strip l).isEmpty = false)
    (h2 : (startsW (strip l) ['#', ' '] && n == 0) = false)
    (h3 : startsW (strip l) ['#', '#', '#', ' '] = false)
    (h4 : startsW (strip l) ['#', '#', ' '] = false)
    (h5 : startsW (strip l) ['#', ' '] = false)
    (h6 : startsW (strip l) fenceTok = false)
    (h7 : startsW (strip l) ['|'] = true) :
    parseStep n l t =
      (if (parseMarkdownTable ((l :: t).takeWhile isTableLine)).1.isEmpty then none
       else some (.table (parseMarkdownTable ((l :: t).takeWhile isTableLine)).1
                         (parseMarkdownTable ((l :: t).takeWhile isTableLine)).2),
       (l :: t).dropWhile isTableLine) := by
  simp [parseStep, h1, h2, h3, h4, h5, h6, h7]

theorem parseStep_eq_bullet (n : Nat) (l : Str) (t : List Str)
    (h1 : (strip l).isEmpty = false)
    (h2 : (startsW (strip l) ['#', ' '] && n == 0) = false)
    (h3 : startsW (strip l) ['#', '#', '#', ' '] = false)
    (h4 : startsW (strip l) ['#', '#', ' '] = false)
    (h5 : startsW (strip l) ['#', ' '] = false)
    (h6 : startsW (strip l) fenceTok = false)
    (h7 : startsW (strip l) ['|'] = false)
    (h8 : (startsW (strip l) ['-', ' '] || startsW (strip l) ['*', ' ']) = true) :
    parseStep n l t =
      (some (.bullet (strip ((strip l).drop 2)) ((l.takeWhile isPyWs).length / 2)), t) := by
  simp [parseStep, h1, h2, h3, h4, h5, h6, h7, h8]

theorem parseStep_eq_numbered (n : Nat) (l : Str) (t : List Str) (num : Nat) (txt : Str)
    (h1 : (strip l).isEmpty = false)
    (h2 : (startsW (strip l) ['#', ' '] && n == 0) = false)
    (h3 : startsW (strip l) ['#', '#', '#', ' '] = false)
    (h4 : startsW (strip l) ['#', '#', ' '] = false)
    (h5 : startsW (strip l) ['#', ' '] = false)
    (h6 : startsW (strip l) fenceTok = false)
    (h7 : startsW (strip l) ['|'] = false)
    (h8 : (startsW (strip l) ['-', ' '] || startsW (strip l) ['*', ' ']) = false)
    (h9 : matchNumbered (strip l) = some (num, txt)) :
    parseStep n l t = (some (.numbered txt num), t) := by
  simp [parseStep, h1, h2, h3, h4, h5, h6, h7, h8, h9]

theorem parseStep_eq_meta (n : Nat) (l : Str) (t : List Str)
    (h1 : (strip l).isEmpty = false)
    (h2 : (startsW (strip l) ['#', ' '] && n == 0) = false)
    (h3 : startsW (strip l) ['#', '#', '#', ' '] = false)
    (h4 : startsW (strip l) ['#', '#', ' '] = false)
    (h5 : startsW (strip l) ['#', ' '] = false)
    (h6 : startsW (strip l) fenceTok = false)
    (h7 : startsW (strip l) ['|'] = false)
    (h8 : (startsW (strip l) ['-', ' '] || startsW (strip l) ['*', ' ']) = false)
    (h9 : matchNumbered (strip l) = none)
    (h10 : ((strip l).any (fun c => c == ':') && decide (n ≤ 2) &&
            recognizedKeys.contains (metaKey (strip l))) = true) :
    parseStep n l t = (some (.metadata (metaKey (strip l)) (metaValue (strip l))), t) := by
  simp [parseStep, h1, h2, h3, h4, h5, h6, h7, h8, h9]
  have h10' : (':' ∈ strip l ∧ n ≤ 2) ∧ metaKey (strip l) ∈ recognizedKeys := by
    simpa using h10
  exact ⟨h10'.1.1, h10'.1.2, h10'.2⟩

theorem parseStep_eq_para (n : Nat) (l : Str) (t : List Str)
    (h1 : (strip l).isEmpty = false)
    (h2 : (startsW (strip l) ['#', ' '] && n == 0) = false)
    (h3 : startsW (strip l) ['#', '#', '#', ' '] = false)
    (h4 : startsW (strip l) ['#', '#', ' '] = false)
    (h5 : startsW (strip l) ['#', ' '] = false)
    (h6 : startsW (strip l) fenceTok = false)
    (h7 : startsW (strip l) ['|'] = false)
    (h8 : (startsW (strip l) ['-', ' '] || startsW (strip l) ['*', ' ']) = false)
    (h9 : matchNumbered (strip l) = none)
    (h10 : ((strip l).any (fun c => c == ':') && decide (n ≤ 2) &&
            recognizedKeys.contains (metaKey (strip l))) = false) :
    parseStep n l t =
      (some (.paragraph
               (joinWith [' ']
                 (strip l :: (t.takeWhile (fun x => !(paraBreak (strip x)))).map strip))),
       t.dropWhile (fun x => !(paraBreak (strip x)))) := by
  simp [parseStep, h1, h2, h3, h4, h5, h6, h7, h8, h9]
  simpa using h10

/-! ### Every parse step consumes at least one line -/

theorem parseStep_snd_le (n : Nat) (l : Str) (t : List Str) :
    (parseStep n l t).2.length ≤ t.length := by
  have hfence : (fenceRest t).length ≤ t.length := by
    unfold fenceRest
    calc ((t.dropWhile (fun x => !(isFenceLine x))).drop 1).length
        ≤ (t.dropWhile (fun x => !(isFenceLine x))).length := by
          rw [List.length_drop]; omega
      _ ≤ t.length := len_dropWhile_le _ t
  cases h1 : (strip l).isEmpty with
  | true => rw [parseStep_eq_blank n l t h1]
  | false =>
  cases h2 : (startsW (strip l) ['#', ' '] && n == 0) with
  | true => rw [parseStep_eq_title n l t h1 h2]
  | false =>
  cases h3 : startsW (strip l) ['#', '#', '#', ' '] with
  | true => rw [parseStep_eq_h3 n l t h1 h2 h3]
  | false =>
  cases h4 : startsW (strip l) ['#', '#', ' '] with
  | true => rw [parseStep_eq_h2 n l t h1 h2 h3 h4]
  | false =>
  cases h5 : startsW (strip l) ['#', ' '] with
  | true => rw [parseStep_eq_h1 n l t h1 h2 h3 h4 h5]
  | false =>
  cases h6 : startsW (strip l) fenceTok with
  | true => rw [parseStep_eq_fence n l t h1 h2 h3 h4 h5 h6]; exact hfence
  | false =>
  cases h7 : startsW (strip l) ['|'] with
  | true =>
    rw [parseStep_eq_table n l t h1 h2 h3 h4 h5 h6 h7]
    show ((l :: t).dropWhile isTableLine).length ≤ t.length
    rw [List.dropWhile_cons_of_pos (show isTableLine l = true from h7)]
    exact len_dropWhile_le _ t
  | false =>
  cases h8 : (startsW (strip l) ['-', ' '] || startsW (strip l) ['*', ' ']) with
  | true => rw [parseStep_eq_bullet n l t h1 h2 h3 h4 h5 h6 h7 h8]
  | false =>
  cases h9 : matchNumbered (strip l) with
  | some p =>
    obtain ⟨num, txt⟩ := p
    rw [parseStep_eq_numbered n l t num txt h1 h2 h3 h4 h5 h6 h7 h8 h9]
  | none =>
  cases h10 : ((strip l).any (fun c => c == ':') && decide (n ≤ 2) &&
      recognizedKeys.contains (metaKey (strip l))) with
  | true => rw [parseStep_eq_meta n l t h1 h2 h3 h4 h5 h6 h7 h8 h9 h10]
  | false =>
    rw [parseStep_eq_para n l t h1 h2 h3 h4 h5 h6 h7 h8 h9 h10]
    exact len_dropWhile_le _ t

/-! ### Fuel is irrelevant once it covers the number of lines -/

theorem parseAuxF_fuel_irrelevant :
    ∀ f g n (lines : List Str), lines.length ≤ f → lines.length ≤ g →
      parseAuxF f n lines = parseAuxF g n lines := by
  intro f
  induction f with
  | zero =>
    intro g n lines hf _
    have : lines = [] := List.eq_nil_of_length_eq_zero (Nat.le_zero.mp hf)
    subst this
    cases g <;> rfl
  | succ f ih =>
    intro g n lines hf hg
    cases lines with
    | nil => cases g <;> rfl
    | cons l t =>
      cases g with
      | zero => simp at hg
      | succ g =>
        simp only [parseAuxF]
        have hle := parseStep_snd_le n l t
        have hlf : t.length ≤ f := by simpa using hf
        have hlg : t.length ≤ g := by simpa using hg
        cases hst : parseStep n l t with
        | mk e rest =>
          have hrest : rest.length ≤ t.length := by rw [hst] at hle; exact hle
          cases e with
          | none => exact ih g n rest (le_trans hrest hlf) (le_trans hrest hlg)
          | some e =>
            exact congrArg (fun x => e :: x)
              (ih g (n + 1) rest (le_trans hrest hlf) (le_trans hrest hlg))

/-! ### C1: the element count is bounded by the line count -/

theorem parseAuxF_length :
    ∀ f n (lines : List Str), (parseAuxF f n lines).length ≤ lines.length := by
  intro f
  induction f with
  | zero => intro n lines; simp [parseAuxF]
  | succ f ih =>
    intro n lines
    cases lines with
    | nil => simp [parseAuxF]
    | cons l t =>
      simp only [parseAuxF]
      have hle := parseStep_snd_le n l t
      cases hst : parseStep n l t with
      | mk e rest =>
        have hrest : rest.length ≤ t.length := by rw [hst] at hle; exact hle
        cases e with
        | none =>
          calc (parseAuxF f n rest).length ≤ rest.length := ih n rest
            _ ≤ t.length := hrest
            _ ≤ (l :: t).length := by simp
        | some e =>
          show (e :: parseAuxF f (n + 1) rest).length ≤ (l :: t).length
          simp only [List.length_cons]
          have := le_trans (ih (n + 1) rest) hrest
          omega

/-- C1.  `parse_rfc_content` terminates on every input (the loop consumes at
least one line per iteration, so running the fuelled loop with any fuel
covering the line count gives the same result), and the element list it
returns is never longer than `text.split('\n')`. -/
theorem parse_total_and_bounded :
    (∀ (text : Str) (f : Nat), (splitLines text).length ≤ f →
       parseAuxF f 0 (splitLines text) = parseRfcContent text)
    ∧ ∀ text : Str, (parseRfcContent text).length ≤ (splitLines text).length := by
  constructor
  · intro text f hf
    exact parseAuxF_fuel_irrelevant f (splitLines text).length 0 (splitLines text) hf le_rfl
  · intro text
    exact parseAuxF_length (splitLines text).length 0 (splitLines text)

/-- Witness for C1 at a concrete input. -/
theorem parse_total_and_bounded_witness :
    parseAuxF 5 0 (splitLines (S "a\nb")) = parseRfcContent (S "a\nb")
    ∧ (parseRfcContent (S "a\nb")).length ≤ (splitLines (S "a\nb")).length :=
  ⟨parse_total_and_bounded.1 (S "a\nb") 5 (by decide),
   parse_total_and_bounded.2 (S "a\nb")⟩

/-! ### C10: numbered items go through `int()` -/

/-- C10.  The numbered-item number is parsed with `int()` (dropping leading
zeros) and re-rendered as the canonical decimal: the input line
`"007. step"` is rendered as the paragraph text `"7. step"`. -/
theorem numbered_leading_zeros (rOk : Str → Bool) (tOv : Option Str) :
    convertToDocx rOk tOv (S "007. step") = [DocItem.numberedI (S "7. step")] := by
  show renderElems rOk tOv [] (parseRfcContent (S "007. step")) = _
  have hp : parseRfcContent (S "007. step") = [Elem.numbered (S "step") 7] := by decide
  rw [hp]
  simp only [renderElems, List.isEmpty_nil, if_true]
  have : numberedText 7 (S "step") = S "7. step" := by decide
  rw [this]

/-! ### C3: a failing rasterization degrades to a code block -/

/-- C3.  If rasterizing a diagram fails (`rOk d = false`, i.e.
`ascii_diagram_to_image` raises), the renderer appends the block's raw text
as a code block instead of an image, and the rendering of the remaining
elements is exactly what it would have been anyway: the exception is caught
locally and the conversion (a total function here) still completes. -/
theorem diagram_failure_degrades (rOk : Str → Bool) (tOv : Option Str)
    (buf : List (Str × Str)) (d : Str) (rest : List Elem) (h : rOk d = false) :
    renderElems rOk tOv buf (Elem.diagram d :: rest) =
      DocItem.codeI d :: renderElems rOk tOv buf rest := by
  simp [renderElems, h]

/-- Witness for C3 at a concrete input. -/
theorem diagram_failure_degrades_witness :
    renderElems (fun _ => false) none [] (Elem.diagram (S "x") :: [Elem.paragraph (S "y")]) =
      DocItem.codeI (S "x") :: renderElems (fun _ => false) none [] [Elem.paragraph (S "y")] :=
  diagram_failure_degrades (fun _ => false) none [] (S "x") [Elem.paragraph (S "y")] rfl

/-! ### C6: the fallback density test -/

/-- C6 counterexample.  On the block `"+" ++ 7 tabs` no regex pattern
matches; the claim's ratio (denominator = non-whitespace characters) is
`1/1 > 0.15`, so the claim predicts a diagram, but the code counts the
tabs in the denominator (`replace` only removes spaces and newlines),
gets `1/8`, and classifies the block as code. -/
theorem density_denominator_cex :
    patternMatch ('+' :: List.replicate 7 '\t') = false
    ∧ specFallbackExceeds ('+' :: List.replicate 7 '\t') = true
    ∧ isAsciiDiagram ('+' :: List.replicate 7 '\t') = false := by
  decide

/-- C6 amended.  When no regex pattern matches, `is_ascii_diagram`
classifies a block as a diagram exactly when the count of non-space,
non-newline characters (tabs and all other whitespace besides the space
and the newline are counted in the total) is positive and the diagram-set
count exceeds 0.15 of it; a block consisting only of whitespace is never
classified as a diagram by the fallback. -/
theorem density_fallback_exact :
    (∀ s : Str, patternMatch s = false →
       (isAsciiDiagram s = true ↔
         0 < totalNonSpaceNl s ∧ 3 * totalNonSpaceNl s < 20 * diagCount s))
    ∧ (∀ s : Str, (∀ c ∈ s, isPyWs c = true) → densityExceeds s = false) := by
  constructor
  · intro s h
    simp [isAsciiDiagram, h, densityExceeds]
  · intro s h
    have hdc : diagCount s = 0 := by
      have : s.filter isDiagramChar = [] := by
        rw [List.filter_eq_nil_iff]
        intro c hc
        have hw := h c hc
        simp only [isPyWs, Bool.or_eq_true, beq_iff_eq] at hw
        rcases hw with ((((rfl | rfl) | rfl) | rfl) | rfl) | rfl <;> decide
      simp [diagCount, this]
    simp [densityExceeds, hdc]

/-- Witness for C6's amended theorem at concrete inputs. -/
theorem density_fallback_exact_witness :
    (isAsciiDiagram (S "hello") = true ↔
      0 < totalNonSpaceNl (S "hello")
      ∧ 3 * totalNonSpaceNl (S "hello") < 20 * diagCount (S "hello"))
    ∧ densityExceeds (S " \t") = false :=
  ⟨density_fallback_exact.1 (S "hello") (by decide),
   density_fallback_exact.2 (S " \t") (by decide)⟩

/-! ### C5: diagram classification -/

theorem hasRun3_exists (p : Char → Bool) :
    ∀ s : Str, hasRun3 p s = true → ∃ c ∈ s, p c = true := by
  intro s
  induction s with
  | nil => intro h; simp [hasRun3] at h
  | cons a s ih =>
    intro h
    cases s with
    | nil => simp [hasRun3] at h
    | cons b s2 =>
      cases s2 with
      | nil => simp [hasRun3] at h
      | cons c r =>
        simp only [hasRun3, Bool.or_eq_true, Bool.and_eq_true] at h
        rcases h with ⟨⟨hpa, _⟩, _⟩ | h2
        · exact ⟨a, List.mem_cons_self a _, hpa⟩
        · obtain ⟨x, hx, hp⟩ := ih (by simpa [hasRun3] using h2)
          exact ⟨x, List.mem_cons_of_mem a hx, hp⟩

theorem hasSubseq_head_mem :
    ∀ (l : Str) (p : Char) (ps : Str), hasSubseqOf (p :: ps) l = true → p ∈ l := by
  intro l
  induction l with
  | nil => intro p ps h; simp [hasSubseqOf] at h
  | cons c cs ih =>
    intro p ps h
    by_cases hpc : p = c
    · rw [hpc]; exact List.mem_cons_self c cs
    · have hb : (p == c) = false := by simp [hpc]
      simp only [hasSubseqOf, hb, Bool.false_eq_true, if_false] at h
      exact List.mem_cons_of_mem c (ih p ps h)

theorem barWsBar_mem : ∀ s : Str, barWsBar s = true → '│' ∈ s := by
  intro s
  induction s with
  | nil => intro h; simp [barWsBar] at h
  | cons c r ih =>
    intro h
    simp only [barWsBar, Bool.or_eq_true, Bool.and_eq_true, beq_iff_eq] at h
    rcases h with ⟨rfl, _⟩ | h2
    · exact List.mem_cons_self _ _
    · exact List.mem_cons_of_mem _ (ih h2)

theorem splitOnChar_ne_nil (sep : Char) : ∀ s : Str, splitOnChar sep s ≠ [] := by
  intro s
  cases s with
  | nil => simp [splitOnChar]
  | cons c r =>
    cases h : (c == sep) with
    | true =>
      simp [splitOnChar, h]
    | false =>
      simp only [splitOnChar, h, Bool.false_eq_true, if_false]
      cases hs : splitOnChar sep r <;> simp

theorem mem_splitOnChar (sep : Char) :
    ∀ (s l : Str) (c : Char), l ∈ splitOnChar sep s → c ∈ l → c ∈ s := by
  intro s
  induction s with
  | nil =>
    intro l c hl hc
    simp only [splitOnChar, List.mem_singleton] at hl
    subst hl
    simp at hc
  | cons a r ih =>
    intro l c hl hc
    cases ha : (a == sep) with
    | true =>
      simp only [splitOnChar, ha, if_true] at hl
      rcases List.mem_cons.mp hl with rfl | hl2
      · simp at hc
      · exact List.mem_cons_of_mem _ (ih l c hl2 hc)
    | false =>
      simp only [splitOnChar, ha, Bool.false_eq_true, if_false] at hl
      cases hs : splitOnChar sep r with
      | nil => exact absurd hs (splitOnChar_ne_nil sep r)
      | cons x xs =>
        rw [hs] at hl
        rcases List.mem_cons.mp hl with rfl | hl2
        · rcases List.mem_cons.mp hc with rfl | hc2
          · exact List.mem_cons_self _ _
          · have hx : x ∈ splitOnChar sep r := by
              rw [hs]; exact List.mem_cons_self _ _
            exact List.mem_cons_of_mem _ (ih x c hx hc2)
        · have hl3 : l ∈ splitOnChar sep r := by
            rw [hs]; exact List.mem_cons_of_mem _ hl2
          exact List.mem_cons_of_mem _ (ih l c hl3 hc)

theorem plusDashBar_diag (c : Char) (h : isPlusDashBar c = true) :
    isDiagramChar c = true := by
  simp only [isPlusDashBar, Bool.or_eq_true, beq_iff_eq] at h
  rcases h with (rfl | rfl) | rfl <;> decide

theorem box_diag (c : Char) (h : isBoxChar c = true) : isDiagramChar c = true := by
  simp only [isBoxChar, Bool.or_eq_true, beq_iff_eq] at h
  rcases h with (((((((((rfl | rfl) | rfl) | rfl) | rfl) | rfl) | rfl) | rfl) | rfl) | rfl) | rfl <;> decide

theorem no_diag_chars_patternMatch (s : Str)
    (h : ∀ c ∈ s, isDiagramChar c = false) : patternMatch s = false := by
  cases hp : patternMatch s with
  | false => rfl
  | true =>
    exfalso
    simp only [patternMatch, Bool.or_eq_true] at hp
    rcases hp with ((((h1 | h2) | h3) | h4) | h5)
    · obtain ⟨c, hc, hpc⟩ := hasRun3_exists isPlusDashBar s h1
      have hd := plusDashBar_diag c hpc
      rw [h c hc] at hd
      exact Bool.false_ne_true hd
    · obtain ⟨c, hc, hpc⟩ := List.any_eq_true.mp h2
      have hd := box_diag c hpc
      rw [h c hc] at hd
      exact Bool.false_ne_true hd
    · obtain ⟨l, hl, hsub⟩ := List.any_eq_true.mp h3
      have hbm : '[' ∈ l := hasSubseq_head_mem l '[' [']', '[', ']'] hsub
      have hm : '[' ∈ s := mem_splitOnChar '\n' s l '[' hl hbm
      have hd : isDiagramChar '[' = true := by decide
      rw [h '[' hm] at hd
      exact Bool.false_ne_true hd
    · obtain ⟨c, hc, hpc⟩ := hasRun3_exists _ s h4
      have hd : isDiagramChar c = true := by
        rw [(beq_iff_eq (a := c)).mp hpc]; decide
      rw [h c hc] at hd
      exact Bool.false_ne_true hd
    · have hm := barWsBar_mem s h5
      have hd : isDiagramChar '│' = true := by decide
      rw [h _ hm] at hd
      exact Bool.false_ne_true hd

theorem parseStep_fenceL (n : Nat) (l : Str) (t : List Str)
    (h : isFenceLine l = true) :
    parseStep n l t =
      (some (if isAsciiDiagram (fenceBody t) then Elem.diagram (fenceBody t)
             else Elem.code (fenceBody t)), fenceRest t) := by
  have h6 : startsW (strip l) fenceTok = true := h
  obtain ⟨r, hr, _⟩ := startsW_cons_ex h6
  have hne : (strip l).isEmpty = false := by rw [hr]; rfl
  have hq : (backquote == '#') = false := by decide
  have hh : startsW (strip l) ['#', ' '] = false := by
    rw [hr]; exact startsW_head_false hq
  have hh3 : startsW (strip l) ['#', '#', '#', ' '] = false := by
    rw [hr]; exact startsW_head_false hq
  have hh2 : startsW (strip l) ['#', '#', ' '] = false := by
    rw [hr]; exact startsW_head_false hq
  have h2 : (startsW (strip l) ['#', ' '] && n == 0) = false := by rw [hh]; rfl
  exact parseStep_eq_fence n l t hne h2 hh3 hh2 hh h6

/-- C5.  A fenced-block body is classified as a diagram when any of the
five regex patterns matches or the density fallback fires; a body none of
whose characters belongs to the diagram character set is classified as
code; and at a fence line the parser emits the `Diagram` element exactly
when `is_ascii_diagram` holds of the body (else the `CodeBlock` element). -/
theorem diagram_classification :
    (∀ s : Str, patternMatch s = true ∨ densityExceeds s = true →
       isAsciiDiagram s = true)
    ∧ (∀ s : Str, (∀ c ∈ s, isDiagramChar c = false) → isAsciiDiagram s = false)
    ∧ (∀ (n : Nat) (l : Str) (t : List Str), isFenceLine l = true →
        parseStep n l t =
          (some (if isAsciiDiagram (fenceBody t) then Elem.diagram (fenceBody t)
                 else Elem.code (fenceBody t)), fenceRest t)) := by
  refine ⟨?_, ?_, parseStep_fenceL⟩
  · intro s h
    rcases h with h | h <;> simp [isAsciiDiagram, h]
  · intro s h
    have hp := no_diag_chars_patternMatch s h
    have hdc : diagCount s = 0 := by
      have : s.filter isDiagramChar = [] := by
        rw [List.filter_eq_nil_iff]
        intro c hc
        simp [h c hc]
      simp [diagCount, this]
    simp [isAsciiDiagram, hp, densityExceeds, hdc]

/-- Witness for C5 at concrete inputs. -/
theorem diagram_classification_witness :
    isAsciiDiagram (S "+--+") = true
    ∧ isAsciiDiagram (S "hi mom") = false
    ∧ parseStep 0 (S "```") [S "ab"] =
        (some (if isAsciiDiagram (fenceBody [S "ab"]) then Elem.diagram (fenceBody [S "ab"])
               else Elem.code (fenceBody [S "ab"])), fenceRest [S "ab"]) :=
  ⟨diagram_classification.1 (S "+--+") (Or.inl (by decide)),
   diagram_classification.2.1 (S "hi mom") (by decide),
   diagram_classification.2.2 0 (S "```") [S "ab"] (by decide)⟩

/-! ### C8: title versus level-1 heading -/

/-- C8 counterexample.  In the input `"|\n# T"` the first non-blank line is
`"|"` (which does not start with hash-space), yet the later `"# T"` line is
still emitted as the `Title` element, because the header-less table region
produced no element: being emitted as Title is NOT equivalent to being the
first non-blank line. -/
theorem title_not_first_nonblank_cex :
    parseRfcContent (S "|\n# T") = [Elem.title (S "T")]
    ∧ firstNonBlank (splitLines (S "|\n# T")) = some (S "|")
    ∧ startsW (strip (S "|")) ['#', ' '] = false := by
  decide

/-- C8 amended.  A line whose stripped form starts with hash-space is
emitted as `Title` exactly when the parser reaches it with zero elements
produced so far (which can happen after blank lines or header-less table
regions, not only at the first non-blank line); reached with at least one
element already produced, it is emitted as a level-1 `Heading`. -/
theorem hash_title_exactly_when (n : Nat) (l : Str) (t : List Str)
    (h : startsW (strip l) ['#', ' '] = true) :
    parseStep n l t =
      (some (if n = 0 then Elem.title (strip ((strip l).drop 2))
             else Elem.h1 (strip ((strip l).drop 2))), t) := by
  have hne : (strip l).isEmpty = false := by
    obtain ⟨r, hr⟩ := startsW_hash_space h
    rw [hr]; rfl
  have h23 := sw_h1_not_h2 h
  by_cases hn : n = 0
  · have h2 : (startsW (strip l) ['#', ' '] && n == 0) = true := by
      rw [h, hn]; rfl
    rw [parseStep_eq_title n l t hne h2, if_pos hn]
  · have h2 : (startsW (strip l) ['#', ' '] && n == 0) = false := by
      rw [h]
      simpa using hn
    rw [parseStep_eq_h1 n l t hne h2 h23.2 h23.1 h, if_neg hn]

/-- Witness for C8's amended theorem: the same hash-space line at element
counts 0 and 1. -/
theorem hash_title_exactly_when_witness :
    parseStep 0 (S "# A") [] =
      (some (if 0 = 0 then Elem.title (strip ((strip (S "# A")).drop 2))
             else Elem.h1 (strip ((strip (S "# A")).drop 2))), [])
    ∧ parseStep 1 (S "# A") [] =
      (some (if 1 = 0 then Elem.title (strip ((strip (S "# A")).drop 2))
             else Elem.h1 (strip ((strip (S "# A")).drop 2))), []) :=
  ⟨hash_title_exactly_when 0 (S "# A") [] (by decide),
   hash_title_exactly_when 1 (S "# A") [] (by decide)⟩

/-! ### C9: lines with an empty interior cell list -/

/-- C9 counterexample.  `"||".split('|')[1:-1]` is `[""]` — one empty
cell, not an empty cell list — and the empty cell does not match
`^[-:]+$`, so a `"||"` line is NOT skipped: it becomes the header row
`[""]`. -/
theorem double_pipe_not_skipped_cex :
    cellsOf (strip (S "||")) = [[]]
    ∧ parseMarkdownTable [S "||"] = ([[]], []) := by
  decide

theorem tableStep_skip (acc : List Str × List (List Str)) (l : Str)
    (h2 : cellsOf (strip l) = []) : tableStep acc l = acc := by
  cases h1 : startsW (strip l) ['|'] with
  | false => simp [tableStep, h1]
  | true => simp [tableStep, h1, h2, sepRow]

/-- C9 amended.  A captured line whose interior cell list is empty after
splitting on the pipe and discarding the first and last pieces — for
example a line consisting only of `"|"`; NOT `"||"`, whose interior cell
list is `[""]` — is skipped exactly as a separator row is (the empty list
vacuously passes the all-separator test), so it contributes neither
headers nor a data row. -/
theorem empty_cells_line_skipped (pre post : List Str) (l : Str)
    (h1 : startsW (strip l) ['|'] = true) (h2 : cellsOf (strip l) = []) :
    parseMarkdownTable (pre ++ l :: post) = parseMarkdownTable (pre ++ post) := by
  unfold parseMarkdownTable
  rw [List.foldl_append, List.foldl_append, List.foldl_cons, tableStep_skip _ l h2]

/-- Witness for C9's amended theorem at a concrete input. -/
theorem empty_cells_line_skipped_witness :
    parseMarkdownTable ([S "| A |"] ++ S "|" :: [S "| 1 |"])
      = parseMarkdownTable ([S "| A |"] ++ [S "| 1 |"]) :=
  empty_cells_line_skipped [S "| A |"] [S "| 1 |"] (S "|") (by decide) (by decide)

/-! ### C4: separator rows never reach the output -/

theorem table_foldl_inv :
    ∀ (lines : List Str) (acc : List Str × List (List Str)),
      (acc.1 = [] ∨ sepRow acc.1 = false) →
      (∀ r ∈ acc.2, sepRow r = false) →
      ((lines.foldl tableStep acc).1 = [] ∨ sepRow (lines.foldl tableStep acc).1 = false)
      ∧ ∀ r ∈ (lines.foldl tableStep acc).2, sepRow r = false := by
  intro lines
  induction lines with
  | nil => intro acc h1 h2; exact ⟨h1, h2⟩
  | cons l rest ih =>
    intro acc h1 h2
    rw [List.foldl_cons]
    have hstep :
        ((tableStep acc l).1 = [] ∨ sepRow (tableStep acc l).1 = false)
        ∧ ∀ r ∈ (tableStep acc l).2, sepRow r = false := by
      cases hp : startsW (strip l) ['|'] with
      | false =>
        simp only [tableStep, hp]
        exact ⟨h1, h2⟩
      | true =>
        cases hsep : sepRow (cellsOf (strip l)) with
        | true =>
          simp only [tableStep, hp, hsep]
          exact ⟨h1, h2⟩
        | false =>
          cases hhd : acc.1.isEmpty with
          | true =>
            simp only [tableStep, hp, hsep, hhd]
            refine ⟨Or.inr ?_, h2⟩
            simpa using hsep
          | false =>
            simp only [tableStep, hp, hsep, hhd]
            refine ⟨h1, ?_⟩
            intro r hr
            rcases List.mem_append.mp hr with hr1 | hr2
            · exact h2 r hr1
            · rw [List.mem_singleton.mp hr2]
              exact hsep
    exact ih (tableStep acc l) hstep.1 hstep.2

/-- C4.  The concrete table `| A | B | / |---|---| / | 1 | 2 |` parses to
headers `["A", "B"]` and rows `[["1", "2"]]`, and in general no returned
header row or data row consists entirely of cells matching `^[-:]+$`. -/
theorem table_separator_never_output :
    parseMarkdownTable [S "| A | B |", S "|---|---|", S "| 1 | 2 |"]
      = ([S "A", S "B"], [[S "1", S "2"]])
    ∧ ∀ lines : List Str,
        ((parseMarkdownTable lines).1 = [] ∨ sepRow (parseMarkdownTable lines).1 = false)
        ∧ ∀ r ∈ (parseMarkdownTable lines).2, sepRow r = false := by
  constructor
  · decide
  · intro lines
    exact table_foldl_inv lines ([], []) (Or.inl rfl) (by simp)

/-- Witness for C4's universally quantified part at a concrete table. -/
theorem table_separator_never_output_witness :
    sepRow [S "1", S "2"] = false
    ∧ ((parseMarkdownTable [S "| A | B |", S "|---|---|", S "| 1 | 2 |"]).1 = []
       ∨ sepRow (parseMarkdownTable [S "| A | B |", S "|---|---|", S "| 1 | 2 |"]).1
           = false) :=
  ⟨(table_separator_never_output.2
      [S "| A | B |", S "|---|---|", S "| 1 | 2 |"]).2 [S "1", S "2"] (by decide),
   (table_separator_never_output.2 [S "| A | B |", S "|---|---|", S "| 1 | 2 |"]).1⟩

/-! ### C2: the metadata buffer flushes exactly once -/

theorem renderElems_append_noH1 (rOk : Str → Bool) (tOv : Option Str) :
    ∀ (pre rest : List Elem) (buf : List (Str × Str)),
      (∀ e ∈ pre, isH1E e = false) →
      renderElems rOk tOv buf (pre ++ rest)
        = elemItems rOk tOv pre ++ renderElems rOk tOv (buf ++ metaPairs pre) rest := by
  intro pre
  induction pre with
  | nil => intro rest buf _; simp [elemItems, metaPairs]
  | cons e p ih =>
    intro rest buf hp
    have hep : ∀ x ∈ p, isH1E x = false :=
      fun x hx => hp x (List.mem_cons_of_mem e hx)
    cases e with
    | title txt =>
      simp [renderElems, elemItems, metaPairs, List.filterMap_cons, ih rest buf hep]
    | h1 txt =>
      exact absurd (hp _ (List.mem_cons_self _ _)) (by simp [isH1E])
    | h2 txt =>
      simp [renderElems, elemItems, metaPairs, List.filterMap_cons, ih rest buf hep]
    | h3 txt =>
      simp [renderElems, elemItems, metaPairs, List.filterMap_cons, ih rest buf hep]
    | paragraph txt =>
      simp [renderElems, elemItems, metaPairs, List.filterMap_cons, ih rest buf hep]
    | bullet txt lv =>
      simp [renderElems, elemItems, metaPairs, List.filterMap_cons, ih rest buf hep]
    | numbered txt num =>
      simp [renderElems, elemItems, metaPairs, List.filterMap_cons, ih rest buf hep]
    | code txt =>
      simp [renderElems, elemItems, metaPairs, List.filterMap_cons, ih rest buf hep]
    | diagram txt =>
      simp [renderElems, elemItems, metaPairs, List.filterMap_cons, ih rest buf hep]
    | table hs rs =>
      simp [renderElems, elemItems, metaPairs, List.filterMap_cons, ih rest buf hep]
    | metadata k v =>
      simp [renderElems, elemItems, metaPairs, List.filterMap_cons,
        ih rest (buf ++ [(k, v)]) hep, List.append_assoc]

theorem renderElems_noMeta (rOk : Str → Bool) (tOv : Option Str) :
    ∀ els : List Elem, (∀ e ∈ els, isMetaE e = false) →
      renderElems rOk tOv [] els = elemItems rOk tOv els := by
  intro els
  induction els with
  | nil => intro _; simp [renderElems, elemItems]
  | cons e p ih =>
    intro hp
    have hep : ∀ x ∈ p, isMetaE x = false :=
      fun x hx => hp x (List.mem_cons_of_mem e hx)
    cases e with
    | metadata k v =>
      exact absurd (hp _ (List.mem_cons_self _ _)) (by simp [isMetaE])
    | title txt => simp [renderElems, elemItems, ih hep]
    | h1 txt => simp [renderElems, elemItems, ih hep]
    | h2 txt => simp [renderElems, elemItems, ih hep]
    | h3 txt => simp [renderElems, elemItems, ih hep]
    | paragraph txt => simp [renderElems, elemItems, ih hep]
    | bullet txt lv => simp [renderElems, elemItems, ih hep]
    | numbered txt num => simp [renderElems, elemItems, ih hep]
    | code txt => simp [renderElems, elemItems, ih hep]
    | diagram txt => simp [renderElems, elemItems, ih hep]
    | table hs rs => simp [renderElems, elemItems, ih hep]

theorem elemItems_no_metaBlock (rOk : Str → Bool) (tOv : Option Str) :
    ∀ els : List Elem, ∀ a ∈ elemItems rOk tOv els, isMetaBlockI a = false := by
  intro els
  induction els with
  | nil => simp [elemItems]
  | cons e p ih =>
    intro a ha
    cases e with
    | diagram txt =>
      simp only [elemItems] at ha
      cases hr : rOk txt <;> rw [hr] at ha <;>
        · rcases List.mem_cons.mp ha with rfl | ha2
          · rfl
          · exact ih a ha2
    | table hs rs =>
      simp only [elemItems] at ha
      rcases List.mem_cons.mp ha with rfl | ha2
      · rfl
      · rcases List.mem_cons.mp ha2 with rfl | ha3
        · rfl
        · exact ih a ha3
    | metadata k v =>
      simp only [elemItems] at ha
      exact ih a ha
    | title txt =>
      simp only [elemItems] at ha
      rcases List.mem_cons.mp ha with rfl | ha2
      · rfl
      · exact ih a ha2
    | h1 txt =>
      simp only [elemItems] at ha
      rcases List.mem_cons.mp ha with rfl | ha2
      · rfl
      · exact ih a ha2
    | h2 txt =>
      simp only [elemItems] at ha
      rcases List.mem_cons.mp ha with rfl | ha2
      · rfl
      · exact ih a ha2
    | h3 txt =>
      simp only [elemItems] at ha
      rcases List.mem_cons.mp ha with rfl | ha2
      · rfl
      · exact ih a ha2
    | paragraph txt =>
      simp only [elemItems] at ha
      rcases List.mem_cons.mp ha with rfl | ha2
      · rfl
      · exact ih a ha2
    | bullet txt lv =>
      simp only [elemItems] at ha
      rcases List.mem_cons.mp ha with rfl | ha2
      · rfl
      · exact ih a ha2
    | numbered txt num =>
      simp only [elemItems] at ha
      rcases List.mem_cons.mp ha with rfl | ha2
      · rfl
      · exact ih a ha2
    | code txt =>
      simp only [elemItems] at ha
      rcases List.mem_cons.mp ha with rfl | ha2
      · rfl
      · exact ih a ha2

theorem countMetaBlocks_elemItems (rOk : Str → Bool) (tOv : Option Str)
    (els : List Elem) : countMetaBlocks (elemItems rOk tOv els) = 0 := by
  unfold countMetaBlocks
  rw [List.countP_eq_zero]
  intro a ha
  simp [elemItems_no_metaBlock rOk tOv els a ha]

theorem countMetaBlocks_append (a b : List DocItem) :
    countMetaBlocks (a ++ b) = countMetaBlocks a + countMetaBlocks b := by
  simp [countMetaBlocks, List.countP_append]

theorem countMetaBlocks_cons (d : DocItem) (ds : List DocItem) :
    countMetaBlocks (d :: ds) = countMetaBlocks ds + (if isMetaBlockI d then 1 else 0) := by
  simp [countMetaBlocks, List.countP_cons]

theorem countMetaBlocks_nil : countMetaBlocks [] = 0 := rfl

/-- C2.  (1) When the recognized metadata elements all precede the first
level-1 heading element, the renderer buffers the pairs and flushes them as
one block, in original input order, immediately before that heading
(followed by the blank separator paragraph the code appends), and the
output contains exactly one metadata block (zero when there were no
metadata elements); the elements after the heading render with an empty
buffer.  (2) When no level-1 heading element occurs, the buffered pairs
flush once, with the same block formatting, at the end of the traversal. -/
theorem metadata_flush_once :
    (∀ (rOk : Str → Bool) (tOv : Option Str) (pre post : List Elem) (t : Str),
       (∀ e ∈ pre, isH1E e = false) → (∀ e ∈ post, isMetaE e = false) →
       renderElems rOk tOv [] (pre ++ Elem.h1 t :: post)
         = elemItems rOk tOv pre
             ++ (if metaPairs pre = [] then []
                 else [DocItem.metaBlock (metaPairs pre), DocItem.blankPara])
             ++ DocItem.headingI 1 t :: elemItems rOk tOv post
       ∧ countMetaBlocks (renderElems rOk tOv [] (pre ++ Elem.h1 t :: post))
         = (if metaPairs pre = [] then 0 else 1))
    ∧ (∀ (rOk : Str → Bool) (tOv : Option Str) (els : List Elem),
       (∀ e ∈ els, isH1E e = false) →
       renderElems rOk tOv [] els
         = elemItems rOk tOv els
             ++ (if metaPairs els = [] then []
                 else [DocItem.metaBlock (metaPairs els)])
       ∧ countMetaBlocks (renderElems rOk tOv [] els)
         = (if metaPairs els = [] then 0 else 1)) := by
  constructor
  · intro rOk tOv pre post t hpre hpost
    have heq : renderElems rOk tOv [] (pre ++ Elem.h1 t :: post)
        = elemItems rOk tOv pre
            ++ renderElems rOk tOv (metaPairs pre) (Elem.h1 t :: post) := by
      simpa using renderElems_append_noH1 rOk tOv pre (Elem.h1 t :: post) [] hpre
    have hfull : renderElems rOk tOv [] (pre ++ Elem.h1 t :: post)
        = elemItems rOk tOv pre
            ++ (if metaPairs pre = [] then []
                else [DocItem.metaBlock (metaPairs pre), DocItem.blankPara])
            ++ DocItem.headingI 1 t :: elemItems rOk tOv post := by
      rw [heq]
      by_cases hmp : metaPairs pre = []
      · rw [hmp]
        simp [renderElems, renderElems_noMeta rOk tOv post hpost]
      · have hne : (metaPairs pre).isEmpty = false := by
          simpa [List.isEmpty_iff] using hmp
        simp [renderElems, hne, hmp, renderElems_noMeta rOk tOv post hpost]
    refine ⟨hfull, ?_⟩
    rw [hfull]
    by_cases hmp : metaPairs pre = [] <;>
      simp [hmp, countMetaBlocks_append, countMetaBlocks_cons, countMetaBlocks_nil,
        isMetaBlockI, countMetaBlocks_elemItems]
  · intro rOk tOv els hels
    have heq : renderElems rOk tOv [] els
        = elemItems rOk tOv els ++ renderElems rOk tOv (metaPairs els) [] := by
      simpa using renderElems_append_noH1 rOk tOv els [] [] hels
    have hfull : renderElems rOk tOv [] els
        = elemItems rOk tOv els
            ++ (if metaPairs els = [] then []
                else [DocItem.metaBlock (metaPairs els)]) := by
      rw [heq]
      by_cases hmp : metaPairs els = []
      · rw [hmp]; simp [renderElems]
      · have hne : (metaPairs els).isEmpty = false := by
          simpa [List.isEmpty_iff] using hmp
        simp [renderElems, hne, hmp]
    refine ⟨hfull, ?_⟩
    rw [hfull]
    by_cases hmp : metaPairs els = [] <;>
      simp [hmp, countMetaBlocks_append, countMetaBlocks_cons, countMetaBlocks_nil,
        isMetaBlockI, countMetaBlocks_elemItems]

/-- Witness for C2 at concrete element lists. -/
theorem metadata_flush_once_witness :
    (renderElems (fun _ => true) none []
        ([Elem.metadata (S "Author") (S "X")] ++ Elem.h1 (S "Intro") :: [Elem.paragraph (S "b")])
      = elemItems (fun _ => true) none [Elem.metadata (S "Author") (S "X")]
          ++ (if metaPairs [Elem.metadata (S "Author") (S "X")] = [] then []
              else [DocItem.metaBlock (metaPairs [Elem.metadata (S "Author") (S "X")]),
                    DocItem.blankPara])
          ++ DocItem.headingI 1 (S "Intro")
            :: elemItems (fun _ => true) none [Elem.paragraph (S "b")]
      ∧ countMetaBlocks (renderElems (fun _ => true) none []
          ([Elem.metadata (S "Author") (S "X")]
            ++ Elem.h1 (S "Intro") :: [Elem.paragraph (S "b")]))
        = (if metaPairs [Elem.metadata (S "Author") (S "X")] = [] then 0 else 1))
    ∧ (renderElems (fun _ => true) none [] [Elem.metadata (S "Author") (S "X")]
      = elemItems (fun _ => true) none [Elem.metadata (S "Author") (S "X")]
          ++ (if metaPairs [Elem.metadata (S "Author") (S "X")] = [] then []
              else [DocItem.metaBlock (metaPairs [Elem.metadata (S "Author") (S "X")])])
      ∧ countMetaBlocks (renderElems (fun _ => true) none []
          [Elem.metadata (S "Author") (S "X")])
        = (if metaPairs [Elem.metadata (S "Author") (S "X")] = [] then 0 else 1)) :=
  ⟨metadata_flush_once.1 (fun _ => true) none [Elem.metadata (S "Author") (S "X")]
      [Elem.paragraph (S "b")] (S "Intro") (by decide) (by decide),
   metadata_flush_once.2 (fun _ => true) none [Elem.metadata (S "Author") (S "X")]
      (by decide)⟩

/-! ### C7: top-level heading lines and heading-1 constructs -/

/-- C7 counterexample.  The input `"|\n# T\n```\n# A\n```\n# B"` has three
lines whose stripped form starts with hash-space, but conversion appends
only one heading-level-1 construct: `"# T"` becomes the Title (the
header-less table region before it produced no element) and `"# A"` is
captured inside the fenced block. -/
theorem h1_count_cex :
    ((splitLines (S "|\n# T\n```\n# A\n```\n# B")).filter
        (fun l => startsW (strip l) ['#', ' '])).length = 3
    ∧ (h1ItemTexts (convertToDocx (fun _ => true) none
        (S "|\n# T\n```\n# A\n```\n# B"))).length = 1 := by
  decide

theorem elemH1Texts_cons_skip (e : Elem) (R : List Elem) (he : isH1E e = false) :
    elemH1Texts (e :: R) = elemH1Texts R := by
  cases e <;> simp_all [elemH1Texts, List.filterMap_cons, isH1E]

theorem elemH1Texts_cons_h1 (txt : Str) (R : List Elem) :
    elemH1Texts (Elem.h1 txt :: R) = txt :: elemH1Texts R := by
  simp [elemH1Texts, List.filterMap_cons]

theorem renderElems_h1Texts (rOk : Str → Bool) (tOv : Option Str) :
    ∀ (els : List Elem) (buf : List (Str × Str)),
      h1ItemTexts (renderElems rOk tOv buf els) = elemH1Texts els := by
  intro els
  induction els with
  | nil =>
    intro buf
    cases hb : buf.isEmpty <;>
      simp [renderElems, hb, h1ItemTexts, elemH1Texts]
  | cons e p ih =>
    intro buf
    cases e with
    | h1 txt =>
      cases hb : buf.isEmpty with
      | true =>
        simpa [renderElems, hb, h1ItemTexts, elemH1Texts, List.filterMap_cons] using ih buf
      | false =>
        simpa [renderElems, hb, h1ItemTexts, elemH1Texts, List.filterMap_cons] using ih []
    | diagram txt =>
      cases hr : rOk txt <;>
        simpa [renderElems, hr, h1ItemTexts, elemH1Texts, List.filterMap_cons] using ih buf
    | title txt =>
      simpa [renderElems, h1ItemTexts, elemH1Texts, List.filterMap_cons] using ih buf
    | h2 txt =>
      simpa [renderElems, h1ItemTexts, elemH1Texts, List.filterMap_cons] using ih buf
    | h3 txt =>
      simpa [renderElems, h1ItemTexts, elemH1Texts, List.filterMap_cons] using ih buf
    | paragraph txt =>
      simpa [renderElems, h1ItemTexts, elemH1Texts, List.filterMap_cons] using ih buf
    | bullet txt lv =>
      simpa [renderElems, h1ItemTexts, elemH1Texts, List.filterMap_cons] using ih buf
    | numbered txt num =>
      simpa [renderElems, h1ItemTexts, elemH1Texts, List.filterMap_cons] using ih buf
    | code txt =>
      simpa [renderElems, h1ItemTexts, elemH1Texts, List.filterMap_cons] using ih buf
    | table hs rs =>
      simpa [renderElems, h1ItemTexts, elemH1Texts, List.filterMap_cons] using ih buf
    | metadata k v =>
      simpa [renderElems, h1ItemTexts, elemH1Texts, List.filterMap_cons]
        using ih (buf ++ [(k, v)])

theorem hashTexts_cons (l : Str) (t : List Str) :
    hashTexts (l :: t) =
      if startsW (strip l) ['#', ' '] = true then
        strip ((strip l).drop 2) :: hashTexts t
      else hashTexts t := by
  by_cases h : startsW (strip l) ['#', ' '] = true <;>
    simp [hashTexts, List.filterMap_cons, h]

theorem hashTexts_append (a b : List Str) :
    hashTexts (a ++ b) = hashTexts a ++ hashTexts b := by
  simp [hashTexts, List.filterMap_append]

theorem hashTexts_none (a : List Str)
    (h : ∀ l ∈ a, startsW (strip l) ['#', ' '] = false) : hashTexts a = [] := by
  induction a with
  | nil => rfl
  | cons l t ih =>
    rw [hashTexts_cons, if_neg (by simp [h l (List.mem_cons_self _ _)])]
    exact ih fun x hx => h x (List.mem_cons_of_mem _ hx)

theorem paraBreak_no_hash {x : Str} (h : paraBreak x = false) :
    startsW x ['#'] = false := by
  simp only [paraBreak, Bool.or_eq_false_iff] at h
  exact h.1.1.1.1.1.2

/-- The induction behind C7's amended statement: with no fence lines and no
table lines, and with the title guard, every hash-space line becomes one
`h1` element and nothing else does. -/
theorem parseAuxF_hashTexts :
    ∀ (f n : Nat) (lines : List Str), lines.length ≤ f →
      (∀ l ∈ lines, isFenceLine l = false ∧ isTableLine l = false) →
      (n = 0 → firstHashGuard lines = false) →
      elemH1Texts (parseAuxF f n lines) = hashTexts lines := by
  intro f
  induction f with
  | zero =>
    intro n lines hf _ _
    have hnil : lines = [] := List.eq_nil_of_length_eq_zero (Nat.le_zero.mp hf)
    subst hnil
    simp [parseAuxF, hashTexts, elemH1Texts]
  | succ f ih =>
    intro n lines hf hclean hguard
    cases lines with
    | nil => simp [parseAuxF, hashTexts, elemH1Texts]
    | cons l t =>
      have hlf : t.length ≤ f := by simpa using hf
      have hcl := hclean l (List.mem_cons_self _ _)
      have hct : ∀ x ∈ t, isFenceLine x = false ∧ isTableLine x = false :=
        fun x hx => hclean x (List.mem_cons_of_mem _ hx)
      have hguard1 : (n + 1 = 0 → firstHashGuard t = false) :=
        fun hzero => absurd hzero (Nat.succ_ne_zero n)
      cases h1 : (strip l).isEmpty with
      | true =>
        have hstep := parseStep_eq_blank n l t h1
        have hun : parseAuxF (f + 1) n (l :: t) = parseAuxF f n t := by
          simp only [parseAuxF, hstep]
        have hnothash : startsW (strip l) ['#', ' '] = false := by
          have hsl : strip l = [] := by simpa using h1
          rw [hsl]; rfl
        have hfg : firstHashGuard (l :: t) = firstHashGuard t := by
          unfold firstHashGuard
          rw [@List.dropWhile_cons_of_pos _ (fun x => (strip x).isEmpty) l t h1]
        rw [hun, hashTexts_cons, if_neg (by simp [hnothash])]
        exact ih n t hlf hct (fun hn => by rw [← hfg]; exact hguard hn)
      | false =>
      cases h2c : startsW (strip l) ['#', ' '] with
      | true =>
        have hfg : firstHashGuard (l :: t) = startsW (strip l) ['#', ' '] := by
          unfold firstHashGuard
          rw [@List.dropWhile_cons_of_neg _ (fun x => (strip x).isEmpty) l t (by simp [h1])]
        by_cases hn : n = 0
        · exfalso
          have hg := hguard hn
          rw [hfg, h2c] at hg
          exact absurd hg (by decide)
        · have hb : (startsW (strip l) ['#', ' '] && n == 0) = false := by
            rw [h2c]; simpa using hn
          have h23 := sw_h1_not_h2 h2c
          have hstep := parseStep_eq_h1 n l t h1 hb h23.2 h23.1 h2c
          have hun : parseAuxF (f + 1) n (l :: t)
              = Elem.h1 (strip ((strip l).drop 2)) :: parseAuxF f (n + 1) t := by
            simp only [parseAuxF, hstep]
          rw [hun, elemH1Texts_cons_h1, hashTexts_cons, if_pos h2c,
            ih (n + 1) t hlf hct hguard1]
      | false =>
      cases h3c : startsW (strip l) ['#', '#', '#', ' '] with
      | true =>
        have hb : (startsW (strip l) ['#', ' '] && n == 0) = false := by
          rw [h2c]; rfl
        have hstep := parseStep_eq_h3 n l t h1 hb h3c
        have hun : parseAuxF (f + 1) n (l :: t)
            = Elem.h3 (strip ((strip l).drop 4)) :: parseAuxF f (n + 1) t := by
          simp only [parseAuxF, hstep]
        rw [hun, elemH1Texts_cons_skip _ _ (by simp [isH1E]),
          hashTexts_cons, if_neg (by simp [h2c]), ih (n + 1) t hlf hct hguard1]
      | false =>
      have hb : (startsW (strip l) ['#', ' '] && n == 0) = false := by
        rw [h2c]; rfl
      cases h4c : startsW (strip l) ['#', '#', ' '] with
      | true =>
        have hstep := parseStep_eq_h2 n l t h1 hb h3c h4c
        have hun : parseAuxF (f + 1) n (l :: t)
            = Elem.h2 (strip ((strip l).drop 3)) :: parseAuxF f (n + 1) t := by
          simp only [parseAuxF, hstep]
        rw [hun, elemH1Texts_cons_skip _ _ (by simp [isH1E]),
          hashTexts_cons, if_neg (by simp [h2c]), ih (n + 1) t hlf hct hguard1]
      | false =>
      cases h6c : startsW (strip l) fenceTok with
      | true =>
        have : isFenceLine l = true := h6c
        rw [hcl.1] at this
        exact absurd this (by decide)
      | false =>
      cases h7c : startsW (strip l) ['|'] with
      | true =>
        have : isTableLine l = true := h7c
        rw [hcl.2] at this
        exact absurd this (by decide)
      | false =>
      cases h8c : (startsW (strip l) ['-', ' '] || startsW (strip l) ['*', ' ']) with
      | true =>
        have hstep := parseStep_eq_bullet n l t h1 hb h3c h4c h2c h6c h7c h8c
        have hun : parseAuxF (f + 1) n (l :: t)
            = Elem.bullet (strip ((strip l).drop 2)) ((l.takeWhile isPyWs).length / 2)
              :: parseAuxF f (n + 1) t := by
          simp only [parseAuxF, hstep]
        rw [hun, elemH1Texts_cons_skip _ _ (by simp [isH1E]),
          hashTexts_cons, if_neg (by simp [h2c]), ih (n + 1) t hlf hct hguard1]
      | false =>
      cases h9c : matchNumbered (strip l) with
      | some pr =>
        obtain ⟨num, txt⟩ := pr
        have hstep := parseStep_eq_numbered n l t num txt h1 hb h3c h4c h2c h6c h7c h8c h9c
        have hun : parseAuxF (f + 1) n (l :: t)
            = Elem.numbered txt num :: parseAuxF f (n + 1) t := by
          simp only [parseAuxF, hstep]
        rw [hun, elemH1Texts_cons_skip _ _ (by simp [isH1E]),
          hashTexts_cons, if_neg (by simp [h2c]), ih (n + 1) t hlf hct hguard1]
      | none =>
      cases h10c : ((strip l).any (fun c => c == ':') && decide (n ≤ 2) &&
          recognizedKeys.contains (metaKey (strip l))) with
      | true =>
        have hstep := parseStep_eq_meta n l t h1 hb h3c h4c h2c h6c h7c h8c h9c h10c
        have hun : parseAuxF (f + 1) n (l :: t)
            = Elem.metadata (metaKey (strip l)) (metaValue (strip l))
              :: parseAuxF f (n + 1) t := by
          simp only [parseAuxF, hstep]
        rw [hun, elemH1Texts_cons_skip _ _ (by simp [isH1E]),
          hashTexts_cons, if_neg (by simp [h2c]), ih (n + 1) t hlf hct hguard1]
      | false =>
        have hstep := parseStep_eq_para n l t h1 hb h3c h4c h2c h6c h7c h8c h9c h10c
        have hun : parseAuxF (f + 1) n (l :: t)
            = Elem.paragraph (joinWith [' ']
                (strip l :: (t.takeWhile (fun x => !(paraBreak (strip x)))).map strip))
              :: parseAuxF f (n + 1) (t.dropWhile (fun x => !(paraBreak (strip x)))) := by
          simp only [parseAuxF, hstep]
        have htw : hashTexts (t.takeWhile (fun x => !(paraBreak (strip x)))) = [] := by
          apply hashTexts_none
          intro x hx
          have hpb : paraBreak (strip x) = false := by
            simpa using pred_of_mem_takeWhile _ t x hx
          cases hh : startsW (strip x) ['#', ' '] with
          | false => rfl
          | true =>
            have hone := sw_hash_of_hash_space hh
            rw [paraBreak_no_hash hpb] at hone
            exact absurd hone (by decide)
        have hrec := ih (n + 1) (t.dropWhile (fun x => !(paraBreak (strip x))))
          (le_trans (len_dropWhile_le _ t) hlf)
          (fun x hx => hct x (mem_of_mem_dropWhile _ t x hx))
          (fun hzero => absurd hzero (Nat.succ_ne_zero n))
        have hsplit : hashTexts t
            = hashTexts (t.dropWhile (fun x => !(paraBreak (strip x)))) := by
          conv_lhs =>
            rw [← List.takeWhile_append_dropWhile (fun x => !(paraBreak (strip x))) t]
          rw [hashTexts_append, htw, List.nil_append]
        rw [hun, elemH1Texts_cons_skip _ _ (by simp [isH1E]), hrec,
          hashTexts_cons, if_neg (by simp [h2c]), hsplit]

/-- C7 amended.  For inputs in which no line's stripped form starts with
the fence delimiter or the pipe, and whose first non-blank line's stripped
form does not start with hash-space (so no hash-space line is swallowed by
a fence and none becomes the Title), conversion appends exactly one
heading-level-1 construct per line whose stripped form starts with
hash-space, with the same texts in the same relative order. -/
theorem h1_lines_preserved (rOk : Str → Bool) (tOv : Option Str) (text : Str)
    (hclean : ∀ l ∈ splitLines text, isFenceLine l = false ∧ isTableLine l = false)
    (hguard : firstHashGuard (splitLines text) = false) :
    h1ItemTexts (convertToDocx rOk tOv text) = hashTexts (splitLines text) := by
  unfold convertToDocx parseRfcContent
  rw [renderElems_h1Texts]
  exact parseAuxF_hashTexts (splitLines text).length 0 (splitLines text)
    le_rfl hclean (fun _ => hguard)

/-- Witness for C7's amended theorem at a concrete input. -/
theorem h1_lines_preserved_witness :
    h1ItemTexts (convertToDocx (fun _ => true) none (S "intro\n# A\n## B\n# C"))
      = hashTexts (splitLines (S "intro\n# A\n## B\n# C")) :=
  h1_lines_preserved (fun _ => true) none (S "intro\n# A\n## B\n# C")
    (by decide) (by decide)

end RfcToDocx
